import Mathlib

set_option maxHeartbeats 1000000

namespace PdfjsViewer

/-!
Shallow embedding of the adaptive PDF page-rendering engine
(complexity analyzer, two-backend renderer dispatch, PDFium native
resource handling, thumbnail pipeline, per-page render state machine,
text-layer synthesizer with search highlighting, and the search index),
translated from the TypeScript sources.
-/

/-! ## Complexity Analyzer
Embeds `analyzePageComplexity` (src/unnamed/part_004 lines 87-298,
src/unnamed/part_005 lines 83-335).  The operator list obtained from
`page.getOperatorList()` is modelled as a list of categorised operations;
the Type3-font count produced by the font-metadata loop (an external,
timeout-bounded lookup) is taken as an input. -/

/-- Operator categories distinguished by the analyzer's switch statement. -/
inductive PdfOp where
  | setFont (fontName : String)
  | paintImageXObject
  | paintInlineImageXObject
  | paintImageMaskXObject
  | showText
  | showSpacedText
  | moveTo
  | lineTo
  | rectangle
  | constructPath
  | curveTo
  | curveTo2
  | curveTo3
  | fill
  | eoFill
  | fillStroke
  | eoFillStroke
  | stroke
  | clip
  | eoClip
  | save
  | restore
  | transform
  | shadingFill
  | dependency
  | otherOp (code : Nat)
deriving DecidableEq

/-- The human-readable strings pushed into `heavyReasons`, as tags. -/
inductive HeavyReason where
  | type3FontsDetected
  | textCountHigh
  | fontSwitchHigh
  | operationCountHigh
deriving DecidableEq

/-- Result record of `analyzePageComplexity` (fields `fontDetails`,
`opCounts` and `analysisTime` are debug/diagnostic data omitted here). -/
structure PageComplexity where
  operationCount : Nat
  fontCount : Nat
  imageCount : Nat
  textCount : Nat
  pathCount : Nat
  curveCount : Nat
  fillCount : Nat
  strokeCount : Nat
  clipCount : Nat
  saveRestoreCount : Nat
  transformCount : Nat
  shadingCount : Nat
  dependencyCount : Nat
  uniqueFonts : List String
  hasType3Fonts : Bool
  type3FontCount : Nat
  estimatedType3Cost : Nat
  isHeavy : Bool
  heavyReasons : List HeavyReason
deriving DecidableEq

def PdfOp.isSetFont : PdfOp → Bool
  | .setFont _ => true
  | _ => false

def PdfOp.isImagePaint : PdfOp → Bool
  | .paintImageXObject => true
  | .paintInlineImageXObject => true
  | .paintImageMaskXObject => true
  | _ => false

def PdfOp.isTextShow : PdfOp → Bool
  | .showText => true
  | .showSpacedText => true
  | _ => false

def PdfOp.isPath : PdfOp → Bool
  | .moveTo => true
  | .lineTo => true
  | .rectangle => true
  | .constructPath => true
  | _ => false

def PdfOp.isCurve : PdfOp → Bool
  | .curveTo => true
  | .curveTo2 => true
  | .curveTo3 => true
  | _ => false

def PdfOp.isFill : PdfOp → Bool
  | .fill => true
  | .eoFill => true
  | .fillStroke => true
  | .eoFillStroke => true
  | _ => false

def PdfOp.isStroke : PdfOp → Bool
  | .stroke => true
  | _ => false

def PdfOp.isClip : PdfOp → Bool
  | .clip => true
  | .eoClip => true
  | _ => false

def PdfOp.isSaveRestore : PdfOp → Bool
  | .save => true
  | .restore => true
  | _ => false

def PdfOp.isTransform : PdfOp → Bool
  | .transform => true
  | _ => false

def PdfOp.isShading : PdfOp → Bool
  | .shadingFill => true
  | _ => false

def PdfOp.isDependency : PdfOp → Bool
  | .dependency => true
  | _ => false

/-- The `fontNames` set accumulated by the counting loop: `setFont`
operands are added when truthy (non-empty), first occurrence kept. -/
def collectFontNames (ops : List PdfOp) : List String :=
  ops.foldl
    (fun acc op =>
      match op with
      | .setFont n => if n = "" then acc else if acc.contains n then acc else acc ++ [n]
      | _ => acc)
    []

/-- `analyzePageComplexity`: tallies operation categories over the
operator list and derives the heaviness verdict with its reasons.
`HEAVY_PAGE_THRESHOLD = 10000`, `HEAVY_TEXT_THRESHOLD = 1000`,
`HEAVY_FONT_SWITCH_THRESHOLD = 200`, `TYPE3_COST_MULTIPLIER = 100`. -/
def analyzePageComplexity (ops : List PdfOp) (type3FontCount : Nat) : PageComplexity :=
  let operationCount := ops.length
  let fontCount := ops.countP PdfOp.isSetFont
  let imageCount := ops.countP PdfOp.isImagePaint
  let textCount := ops.countP PdfOp.isTextShow
  let pathCount := ops.countP PdfOp.isPath
  let curveCount := ops.countP PdfOp.isCurve
  let fillCount := ops.countP PdfOp.isFill
  let strokeCount := ops.countP PdfOp.isStroke
  let clipCount := ops.countP PdfOp.isClip
  let saveRestoreCount := ops.countP PdfOp.isSaveRestore
  let transformCount := ops.countP PdfOp.isTransform
  let shadingCount := ops.countP PdfOp.isShading
  let dependencyCount := ops.countP PdfOp.isDependency
  let uniqueFonts := collectFontNames ops
  let hasType3Fonts := decide (0 < type3FontCount)
  let estimatedType3Cost := if hasType3Fonts then textCount * 100 else 0
  let r1 := hasType3Fonts && decide (10 < textCount)
  let r2 := decide (1000 < textCount)
  let r3 := decide (200 < fontCount)
  let r4 := decide (10000 < operationCount)
  let isHeavy := r1 || r2 || r3 || r4
  let heavyReasons :=
    (if r1 then [HeavyReason.type3FontsDetected] else []) ++
    (if r2 then [HeavyReason.textCountHigh] else []) ++
    (if r3 then [HeavyReason.fontSwitchHigh] else []) ++
    (if r4 then [HeavyReason.operationCountHigh] else [])
  ⟨operationCount, fontCount, imageCount, textCount, pathCount, curveCount,
   fillCount, strokeCount, clipCount, saveRestoreCount, transformCount,
   shadingCount, dependencyCount, uniqueFonts, hasType3Fonts, type3FontCount,
   estimatedType3Cost, isHeavy, heavyReasons⟩

theorem mem_ite_singleton (b : Bool) (x y : HeavyReason) :
    (x ∈ if b then [y] else []) ↔ (b = true ∧ x = y) := by
  cases b <;> simp

theorem countP_replicate {α : Type} (p : α → Bool) (a : α) (n : Nat) :
    (List.replicate n a).countP p = if p a then n else 0 := by
  induction n with
  | zero => simp
  | succ n ih =>
    rw [List.replicate_succ, List.countP_cons, ih]
    cases h : p a <;> simp [h]

/-- C1: the heaviness verdict is true iff one of the four rules holds
(Type3 fonts present with text-show count over 10; text-show count over
1000; font-switch count over 200; total operation count over 10000), each
rule that holds contributes its recorded reason and conversely, and in
particular 1001 text-show operations without Type3 fonts trigger the
text-count rule while 1000 do not. -/
theorem analyzer_heaviness_verdict (ops : List PdfOp) (t3 : Nat) :
    (((analyzePageComplexity ops t3).isHeavy = true) ↔
      (((analyzePageComplexity ops t3).hasType3Fonts = true ∧
          10 < (analyzePageComplexity ops t3).textCount) ∨
        1000 < (analyzePageComplexity ops t3).textCount ∨
        200 < (analyzePageComplexity ops t3).fontCount ∨
        10000 < (analyzePageComplexity ops t3).operationCount)) ∧
    ((HeavyReason.type3FontsDetected ∈ (analyzePageComplexity ops t3).heavyReasons) ↔
      ((analyzePageComplexity ops t3).hasType3Fonts = true ∧
        10 < (analyzePageComplexity ops t3).textCount)) ∧
    ((HeavyReason.textCountHigh ∈ (analyzePageComplexity ops t3).heavyReasons) ↔
      1000 < (analyzePageComplexity ops t3).textCount) ∧
    ((HeavyReason.fontSwitchHigh ∈ (analyzePageComplexity ops t3).heavyReasons) ↔
      200 < (analyzePageComplexity ops t3).fontCount) ∧
    ((HeavyReason.operationCountHigh ∈ (analyzePageComplexity ops t3).heavyReasons) ↔
      10000 < (analyzePageComplexity ops t3).operationCount) ∧
    (analyzePageComplexity (List.replicate 1001 PdfOp.showText) 0).isHeavy = true ∧
    HeavyReason.textCountHigh ∈
      (analyzePageComplexity (List.replicate 1001 PdfOp.showText) 0).heavyReasons ∧
    (analyzePageComplexity (List.replicate 1000 PdfOp.showText) 0).isHeavy = false ∧
    HeavyReason.textCountHigh ∉
      (analyzePageComplexity (List.replicate 1000 PdfOp.showText) 0).heavyReasons := by
  refine ⟨?_, ?_, ?_, ?_, ?_, ?_, ?_, ?_, ?_⟩ <;>
    simp only [analyzePageComplexity, List.mem_append, mem_ite_singleton,
      countP_replicate, List.length_replicate, PdfOp.isTextShow,
      PdfOp.isSetFont, Bool.or_eq_true, Bool.and_eq_true,
      decide_eq_true_eq] <;>
    first
      | omega
      | rfl
      | simp

/-! ## Fallback adapter resource lifecycle
Embeds `renderPageWithPdfium` (src/unnamed/part_006 lines 32-148) as a
native-resource event trace.  The native calls are modelled by an
environment saying which acquisition steps succeed; the function mirrors
the source's `try`/`finally` structure: `malloc` of the input buffer
before the `try`, `throw` on a falsy document/page/bitmap handle, and a
single teardown in `finally` releasing bitmap, page, document (each only
if acquired) and always freeing the input buffer. -/

/-- The four native resources the Fallback adapter acquires. -/
inductive NativeRes where
  | inputBuffer
  | document
  | page
  | bitmap
deriving DecidableEq

/-- Acquisition and release events on native resources. -/
inductive NativeEvent where
  | acquire (r : NativeRes)
  | release (r : NativeRes)
deriving DecidableEq

/-- Outcome of each fallible native step inside `renderPageWithPdfium`:
`FPDF_LoadMemDocument`, `FPDF_LoadPage`, `FPDFBitmap_Create` return a
truthy handle, and `FPDF_RenderPageBitmap` plus the pixel read-back
complete without trapping. -/
structure PdfiumEnv where
  loadDocumentOk : Bool
  loadPageOk : Bool
  createBitmapOk : Bool
  renderOk : Bool
deriving DecidableEq

/-- The `finally` block: destroy the bitmap if created, close the page if
opened, close the document if loaded, then free the input buffer. -/
def pdfiumTeardown (doc page bitmap : Bool) : List NativeEvent :=
  (if bitmap then [NativeEvent.release NativeRes.bitmap] else []) ++
  (if page then [NativeEvent.release NativeRes.page] else []) ++
  (if doc then [NativeEvent.release NativeRes.document] else []) ++
  [NativeEvent.release NativeRes.inputBuffer]

/-- `renderPageWithPdfium` as a resource trace plus a success flag: the
input buffer is `malloc`ed, then document, page and bitmap are acquired
in order, each failure throwing out of the `try`; on every exit path the
`finally` teardown runs. -/
def renderPageWithPdfium (env : PdfiumEnv) : List NativeEvent × Bool :=
  let ev0 := [NativeEvent.acquire NativeRes.inputBuffer]
  if ¬ env.loadDocumentOk then
    (ev0 ++ pdfiumTeardown false false false, false)
  else
    let ev1 := ev0 ++ [NativeEvent.acquire NativeRes.document]
    if ¬ env.loadPageOk then
      (ev1 ++ pdfiumTeardown true false false, false)
    else
      let ev2 := ev1 ++ [NativeEvent.acquire NativeRes.page]
      if ¬ env.createBitmapOk then
        (ev2 ++ pdfiumTeardown true true false, false)
      else
        let ev3 := ev2 ++ [NativeEvent.acquire NativeRes.bitmap]
        if ¬ env.renderOk then
          (ev3 ++ pdfiumTeardown true true true, false)
        else
          (ev3 ++ pdfiumTeardown true true true, true)

/-- A trace is well scoped when, replaying it against the set of live
handles, every acquire is fresh, every release hits a live handle, and no
handle is live at the end: each acquired resource is released exactly
once, after its acquisition. -/
def scopeCheck : List NativeEvent → List NativeRes → Bool
  | [], live => live.isEmpty
  | NativeEvent.acquire r :: rest, live =>
      ¬ live.contains r && scopeCheck rest (r :: live)
  | NativeEvent.release r :: rest, live =>
      live.contains r && scopeCheck rest (live.erase r)

/-- C3: on every execution of the Fallback render routine, whatever
combination of native steps fails, the produced event trace is well
scoped — every acquired handle (input buffer, document, page, bitmap) is
released exactly once after acquisition and none is live on exit — and a
resource is acquired exactly when the steps before it succeeded. -/
theorem pdfium_resources_released (env : PdfiumEnv) :
    scopeCheck (renderPageWithPdfium env).1 [] = true ∧
    (renderPageWithPdfium env).1.contains (NativeEvent.acquire NativeRes.inputBuffer) = true ∧
    (renderPageWithPdfium env).1.contains (NativeEvent.acquire NativeRes.document) =
      env.loadDocumentOk ∧
    (renderPageWithPdfium env).1.contains (NativeEvent.acquire NativeRes.page) =
      (env.loadDocumentOk && env.loadPageOk) ∧
    (renderPageWithPdfium env).1.contains (NativeEvent.acquire NativeRes.bitmap) =
      (env.loadDocumentOk && env.loadPageOk && env.createBitmapOk) ∧
    (renderPageWithPdfium env).2 =
      (env.loadDocumentOk && env.loadPageOk && env.createBitmapOk && env.renderOk) := by
  obtain ⟨a, b, c, d⟩ := env
  cases a <;> cases b <;> cases c <;> cases d <;> decide

/-! ## Thumbnail pipeline
Embeds the `generateThumbnails` effect (src/unnamed/part_004 lines
818-914, src/unnamed/part_005 lines 784-892).  Each loop iteration's
external outcome (analysis verdict, PDFium success, canvas-context
acquisition, thrown error) is an oracle indexed by page number;
`cancelAt` models the `cancelled` flag read at the top of each
iteration.  Entries record the page they were generated from. -/

/-- A thumbnail entry: an encoded preview, or the skipped marker holding
the heaviness reason. -/
inductive ThumbEntry where
  | preview (pageNum : Nat)
  | skipped (pageNum : Nat) (reason : String)
deriving DecidableEq

def ThumbEntry.pageOf : ThumbEntry → Nat
  | ThumbEntry.preview n => n
  | ThumbEntry.skipped n _ => n

/-- Per-page outcome of one iteration of the thumbnail loop:
`pdfiumPreview` = heavy page, PDFium succeeded and a data URL was
appended; `heavySkipped` = heavy page, PDFium unavailable or failed, the
skipped marker was appended; `primaryPreview` = light page, canvas
context obtained, pdf.js render and encode succeeded; `ctxNull` = light
page but `getContext` returned null (the code appends nothing and
continues); `errorThrown` = `getPage`/analysis/render threw (the loop
aborts). -/
inductive ThumbOutcome where
  | pdfiumPreview
  | heavySkipped (reason : String)
  | primaryPreview
  | ctxNull
  | errorThrown
deriving DecidableEq

/-- The `for (let pageNum = startPage; pageNum <= pdfDoc.numPages; ...)`
loop; `remaining` counts the iterations left until `numPages` is
exceeded. -/
def genLoop (outcome : Nat → ThumbOutcome) (cancelAt : Nat → Bool) :
    Nat → Nat → List ThumbEntry → List ThumbEntry
  | 0, _, acc => acc
  | remaining + 1, pageNum, acc =>
    if cancelAt pageNum then acc
    else
      match outcome pageNum with
      | ThumbOutcome.errorThrown => acc
      | ThumbOutcome.ctxNull =>
          genLoop outcome cancelAt remaining (pageNum + 1) acc
      | ThumbOutcome.pdfiumPreview =>
          genLoop outcome cancelAt remaining (pageNum + 1)
            (acc ++ [ThumbEntry.preview pageNum])
      | ThumbOutcome.primaryPreview =>
          genLoop outcome cancelAt remaining (pageNum + 1)
            (acc ++ [ThumbEntry.preview pageNum])
      | ThumbOutcome.heavySkipped rs =>
          genLoop outcome cancelAt remaining (pageNum + 1)
            (acc ++ [ThumbEntry.skipped pageNum rs])

/-- One run of the `generateThumbnails` effect: it captures
`startPage = thumbnails.length + 1` and appends to the existing list. -/
def generateThumbnails (outcome : Nat → ThumbOutcome) (cancelAt : Nat → Bool)
    (numPages : Nat) (existing : List ThumbEntry) : List ThumbEntry :=
  genLoop outcome cancelAt (numPages - existing.length) (existing.length + 1) existing

/-- The gap-free correspondence: the entry in position `i` of the list
was generated from page `k + i`. -/
def alignedFromB : Nat → List ThumbEntry → Bool
  | _, [] => true
  | k, e :: rest => e.pageOf = k && alignedFromB (k + 1) rest

theorem alignedFromB_append (l₁ l₂ : List ThumbEntry) (k : Nat) :
    alignedFromB k (l₁ ++ l₂) =
      (alignedFromB k l₁ && alignedFromB (k + l₁.length) l₂) := by
  induction l₁ generalizing k with
  | nil => simp [alignedFromB]
  | cons e rest ih =>
    show alignedFromB k (e :: (rest ++ l₂)) = _
    rw [alignedFromB, ih (k + 1), alignedFromB, Bool.and_assoc]
    have hidx : k + 1 + rest.length = k + (e :: rest).length := by
      simp [List.length_cons]; omega
    rw [hidx]

theorem alignedFromB_get (l : List ThumbEntry) (k : Nat)
    (hA : alignedFromB k l = true) :
    ∀ i : Fin l.length, (l.get i).pageOf = k + i.1 := by
  induction l generalizing k with
  | nil => intro i; exact absurd i.2 (by simp)
  | cons e rest ih =>
    intro i
    simp only [alignedFromB, Bool.and_eq_true, decide_eq_true_eq] at hA
    match i with
    | ⟨0, _⟩ => simpa using hA.1
    | ⟨j + 1, hj⟩ =>
      have := ih (k + 1) hA.2 ⟨j, by simpa using hj⟩
      simpa [Nat.add_comm, Nat.add_left_comm] using this

theorem genLoop_inv (outcome : Nat → ThumbOutcome) (cancelAt : Nat → Bool)
    (hctx : ∀ n, outcome n ≠ ThumbOutcome.ctxNull) :
    ∀ (remaining pageNum : Nat) (acc : List ThumbEntry),
      alignedFromB 1 acc = true → pageNum = acc.length + 1 →
      alignedFromB 1 (genLoop outcome cancelAt remaining pageNum acc) = true ∧
      (genLoop outcome cancelAt remaining pageNum acc).length ≤
        acc.length + remaining ∧
      (genLoop outcome cancelAt remaining pageNum acc).take acc.length = acc := by
  intro remaining
  induction remaining with
  | zero =>
    intro pageNum acc hA _
    refine ⟨hA, Nat.le_refl _, ?_⟩
    show List.take acc.length acc = acc
    exact List.take_length acc
  | succ remaining ih =>
    intro pageNum acc hA hP
    by_cases hc : cancelAt pageNum = true
    · refine ⟨?_, ?_, ?_⟩
      · show alignedFromB 1 (genLoop outcome cancelAt (remaining + 1) pageNum acc) = true
        rw [genLoop, if_pos hc]
        exact hA
      · show (genLoop outcome cancelAt (remaining + 1) pageNum acc).length ≤ _
        rw [genLoop, if_pos hc]
        omega
      · show (genLoop outcome cancelAt (remaining + 1) pageNum acc).take acc.length = acc
        rw [genLoop, if_pos hc]
        exact List.take_length acc
    · have append_case : ∀ e : ThumbEntry, e.pageOf = pageNum →
          alignedFromB 1 (genLoop outcome cancelAt remaining (pageNum + 1) (acc ++ [e])) = true ∧
          (genLoop outcome cancelAt remaining (pageNum + 1) (acc ++ [e])).length ≤
            acc.length + (remaining + 1) ∧
          (genLoop outcome cancelAt remaining (pageNum + 1) (acc ++ [e])).take acc.length = acc := by
        intro e he
        have hA' : alignedFromB 1 (acc ++ [e]) = true := by
          rw [alignedFromB_append]
          simp only [hA, Bool.true_and, alignedFromB]
          simp [he, hP, Nat.add_comm]
        have hP' : pageNum + 1 = (acc ++ [e]).length + 1 := by
          simp [List.length_append, hP]
        obtain ⟨h1, h2, h3⟩ := ih (pageNum + 1) (acc ++ [e]) hA' hP'
        refine ⟨h1, by simp at h2; omega, ?_⟩
        have hle : acc.length ≤ (acc ++ [e]).length := by simp
        calc (genLoop outcome cancelAt remaining (pageNum + 1) (acc ++ [e])).take acc.length
            = ((genLoop outcome cancelAt remaining (pageNum + 1) (acc ++ [e])).take
                (acc ++ [e]).length).take acc.length := by
              rw [List.take_take, Nat.min_eq_left hle]
          _ = (acc ++ [e]).take acc.length := by rw [h3]
          _ = acc := by simp
      cases houtcome : outcome pageNum with
      | errorThrown =>
        rw [genLoop, if_neg hc]
        simp only [houtcome]
        exact ⟨hA, by omega, List.take_length acc⟩
      | ctxNull => exact absurd houtcome (hctx pageNum)
      | pdfiumPreview =>
        rw [genLoop, if_neg hc]
        simp only [houtcome]
        exact append_case (ThumbEntry.preview pageNum) rfl
      | primaryPreview =>
        rw [genLoop, if_neg hc]
        simp only [houtcome]
        exact append_case (ThumbEntry.preview pageNum) rfl
      | heavySkipped rs =>
        rw [genLoop, if_neg hc]
        simp only [houtcome]
        exact append_case (ThumbEntry.skipped pageNum rs) rfl

/-- Outcome oracle for the counterexample: page 1 is a light page whose
`getContext` call returns null, page 2 renders normally. -/
def thumbOutcomeCE : Nat → ThumbOutcome :=
  fun n => if n = 1 then ThumbOutcome.ctxNull else ThumbOutcome.primaryPreview

/-- C4 counterexample: when `offscreen.getContext` returns null for page 1
of a 2-page document, the loop appends nothing for page 1 and then
appends page 2's preview at index 0, so the entry at index `i` does not
correspond to page `i + 1` — the claimed invariant fails as stated. -/
theorem thumbnail_prefix_counterexample :
    ¬ (∀ i : Fin (generateThumbnails thumbOutcomeCE (fun _ => false) 2 []).length,
        ((generateThumbnails thumbOutcomeCE (fun _ => false) 2 []).get i).pageOf =
          i.1 + 1) := by
  decide

/-- C4 amended: provided the canvas-context acquisition succeeds for
every processed light page (the `getContext`-null branch appends no entry
and silently continues, breaking the correspondence), the thumbnail list
is always a contiguous gap-free page-ordered list — the entry at index
`i` corresponds to page `i + 1`, the length never exceeds the page
count — and a restarted generation resumes from the first ungenerated
page, leaving all earlier entries unchanged. -/
theorem thumbnail_prefix_amended (outcome : Nat → ThumbOutcome)
    (cancelAt : Nat → Bool) (numPages : Nat) (existing : List ThumbEntry)
    (hctx : ∀ n, outcome n ≠ ThumbOutcome.ctxNull)
    (hex : alignedFromB 1 existing = true)
    (hlen : existing.length ≤ numPages) :
    alignedFromB 1 (generateThumbnails outcome cancelAt numPages existing) = true ∧
    (∀ i : Fin (generateThumbnails outcome cancelAt numPages existing).length,
      ((generateThumbnails outcome cancelAt numPages existing).get i).pageOf = i.1 + 1) ∧
    (generateThumbnails outcome cancelAt numPages existing).length ≤ numPages ∧
    (generateThumbnails outcome cancelAt numPages existing).take existing.length =
      existing := by
  obtain ⟨h1, h2, h3⟩ := genLoop_inv outcome cancelAt hctx
    (numPages - existing.length) (existing.length + 1) existing hex rfl
  refine ⟨h1, ?_, ?_, h3⟩
  · intro i
    have h := alignedFromB_get _ 1 h1 i
    exact h.trans (Nat.add_comm 1 i.1)
  · calc (generateThumbnails outcome cancelAt numPages existing).length
        ≤ existing.length + (numPages - existing.length) := h2
    _ ≤ numPages := by omega

/-- Witness for the amended C4 theorem: resuming a 3-page document from
an existing one-entry list, with every page rendering normally, yields
the aligned three-entry list extending the original. -/
theorem thumbnail_prefix_amended_witness :
    alignedFromB 1 (generateThumbnails (fun _ => ThumbOutcome.primaryPreview)
      (fun _ => false) 3 [ThumbEntry.preview 1]) = true ∧
    (generateThumbnails (fun _ => ThumbOutcome.primaryPreview)
      (fun _ => false) 3 [ThumbEntry.preview 1]).length ≤ 3 ∧
    (generateThumbnails (fun _ => ThumbOutcome.primaryPreview)
      (fun _ => false) 3 [ThumbEntry.preview 1]).take 1 = [ThumbEntry.preview 1] := by
  obtain ⟨h1, _, h3, h4⟩ := thumbnail_prefix_amended
    (fun _ => ThumbOutcome.primaryPreview) (fun _ => false) 3 [ThumbEntry.preview 1]
    (fun n h => ThumbOutcome.noConfusion h) (by decide) (by decide)
  exact ⟨h1, h3, h4⟩

/-! ## Render orchestration state
Embeds the per-page render state map and `renderSinglePage`
(src/unnamed/part_004 lines 72-76 and 493-627), the scale/rotation reset
and query-only text-layer refresh effects (lines 664-698), and
`executeRender` of the single-page viewer (src/unnamed/part_005 lines
536-686).  External async steps (container lookup, analysis, canvas
lookup, the two renderers, text layer) are oracles in an environment
record; a returned trace says which stages ran. -/

/-- `PageRenderState` (part_004 lines 72-76): three booleans, nothing
else. -/
structure PageRenderState where
  rendered : Bool
  rendering : Bool
  usedPdfium : Bool
deriving DecidableEq

/-- The viewer state touched by rendering: document presence, the raw
byte snapshot kept for PDFium, global scale/rotation/query, and the
per-page `Map` of render states as an insertion-ordered association
list. -/
structure ViewerState where
  pdfDocLoaded : Bool
  pdfSnapshot : Bool
  scale : ℚ
  rotation : ℤ
  searchQuery : List Char
  pageRenderStates : List (Nat × PageRenderState)
deriving DecidableEq

/-- JS `Map.get`. -/
def mapGet (m : List (Nat × PageRenderState)) (k : Nat) : Option PageRenderState :=
  match m with
  | [] => none
  | a :: rest => if a.1 = k then some a.2 else mapGet rest k

/-- JS `Map.set`: replaces the value in place when the key exists,
otherwise appends. -/
def mapSet (m : List (Nat × PageRenderState)) (k : Nat) (v : PageRenderState) :
    List (Nat × PageRenderState) :=
  match m with
  | [] => [(k, v)]
  | a :: rest => if a.1 = k then (k, v) :: rest else a :: mapSet rest k v

theorem mapGet_mapSet (m : List (Nat × PageRenderState)) (k : Nat)
    (v : PageRenderState) : mapGet (mapSet m k v) k = some v := by
  induction m with
  | nil => simp [mapSet, mapGet]
  | cons a rest ih =>
    by_cases h : a.1 = k
    · simp [mapSet, mapGet, h]
    · simp [mapSet, mapGet, h, ih]

/-- Environment for one `renderSinglePage` call: whether the page
container is registered, whether `getPage` + `analyzePageComplexity`
resolve, the analyzer's verdict, whether the canvas and text-layer nodes
are found, and whether the PDFium and pdf.js render paths resolve. -/
structure RenderEnv where
  containerPresent : Bool
  analyzeOk : Bool
  isHeavy : Bool
  canvasPresent : Bool
  pdfiumOk : Bool
  primaryOk : Bool
deriving DecidableEq

/-- Which stages of `renderSinglePage` executed. -/
structure RenderTrace where
  analyzed : Bool
  pdfiumInvoked : Bool
  primaryInvoked : Bool
deriving DecidableEq

/-- The `currentState?.rendered || currentState?.rendering` guard. -/
def pageBusy (st : ViewerState) (pageNum : Nat) : Bool :=
  match mapGet st.pageRenderStates pageNum with
  | some s => s.rendered || s.rendering
  | none => false

def setPageState (st : ViewerState) (pageNum : Nat) (s : PageRenderState) :
    ViewerState :=
  { st with pageRenderStates := mapSet st.pageRenderStates pageNum s }

/-- `renderSinglePage` (part_004 lines 493-627): early returns when the
document or snapshot is absent, the container is missing, or the page is
already rendered/rendering; otherwise marks the page rendering, analyzes
it, uses PDFium only when the verdict is heavy, falls back to pdf.js when
PDFium throws, and on any other thrown error resets the page record to
all-false. -/
def renderSinglePage (st : ViewerState) (pageNum : Nat) (env : RenderEnv) :
    ViewerState × RenderTrace :=
  if ¬ st.pdfDocLoaded then (st, ⟨false, false, false⟩)
  else if ¬ st.pdfSnapshot then (st, ⟨false, false, false⟩)
  else if ¬ env.containerPresent then (st, ⟨false, false, false⟩)
  else if pageBusy st pageNum then (st, ⟨false, false, false⟩)
  else
    let st1 := setPageState st pageNum ⟨false, true, false⟩
    if ¬ env.analyzeOk then
      (setPageState st1 pageNum ⟨false, false, false⟩, ⟨true, false, false⟩)
    else if ¬ env.canvasPresent then
      (st1, ⟨true, false, false⟩)
    else if env.isHeavy then
      if env.pdfiumOk then
        (setPageState st1 pageNum ⟨true, false, true⟩, ⟨true, true, false⟩)
      else if env.primaryOk then
        (setPageState st1 pageNum ⟨true, false, false⟩, ⟨true, true, true⟩)
      else
        (setPageState st1 pageNum ⟨false, false, false⟩, ⟨true, true, true⟩)
    else if env.primaryOk then
      (setPageState st1 pageNum ⟨true, false, false⟩, ⟨true, false, true⟩)
    else
      (setPageState st1 pageNum ⟨false, false, false⟩, ⟨true, false, true⟩)

/-- C6: a render request for a page whose record is already rendered or
rendering is a complete no-op — the state is returned unchanged and the
trace shows that neither analysis nor either renderer ran. -/
theorem render_request_noop (st : ViewerState) (pageNum : Nat)
    (env : RenderEnv) (s : PageRenderState)
    (hs : mapGet st.pageRenderStates pageNum = some s)
    (hbusy : s.rendered = true ∨ s.rendering = true) :
    renderSinglePage st pageNum env = (st, ⟨false, false, false⟩) := by
  have hb : pageBusy st pageNum = true := by
    rcases hbusy with h | h <;> simp [pageBusy, hs, h]
  simp only [renderSinglePage, hb]
  split_ifs <;> rfl

/-- Witness for C6 at a concrete state: page 1 is recorded as rendered,
and a second render request leaves the state untouched with an empty
trace. -/
theorem render_request_noop_witness :
    renderSinglePage
        ⟨true, true, 1, 0, [], [(1, ⟨true, false, false⟩)]⟩ 1
        ⟨true, true, false, true, true, true⟩ =
      (⟨true, true, 1, 0, [], [(1, ⟨true, false, false⟩)]⟩,
        ⟨false, false, false⟩) := by
  exact render_request_noop _ 1 _ ⟨true, false, false⟩ (by decide) (Or.inl rfl)

/-- C7 counterexample: the per-page state type is the three-boolean
record, not a five-status enumeration, and the error path of
`renderSinglePage` (part_004 lines 604-615) writes the all-false record:
after analysis throws on page 1, the stored state equals the idle record
`⟨false, false, false⟩`, and a subsequent render request for that page is
not blocked — it starts analysis again — so no distinct `Failed` status
exists. -/
theorem failed_status_counterexample :
    (renderSinglePage ⟨true, true, 1, 0, [], []⟩ 1
        ⟨true, false, false, true, true, true⟩).1.pageRenderStates =
      [(1, ⟨false, false, false⟩)] ∧
    pageBusy (renderSinglePage ⟨true, true, 1, 0, [], []⟩ 1
        ⟨true, false, false, true, true, true⟩).1 1 = false ∧
    (renderSinglePage
        (renderSinglePage ⟨true, true, 1, 0, [], []⟩ 1
          ⟨true, false, false, true, true, true⟩).1 1
        ⟨true, true, false, true, true, true⟩).2.analyzed = true := by
  decide

/-- C7 amended: when analysis or rendering of a non-busy page throws, the
page's record is reset to the all-false record `⟨false, false, false⟩` —
the same observable state as an idle page, with no distinct `Failed`
status — so the page is immediately re-renderable; the per-page state is
the record of the three booleans `rendered`, `rendering`, `usedPdfium`
rather than a five-status enumeration with a separate renderer field. -/
theorem error_resets_to_idle_record (st : ViewerState) (pageNum : Nat)
    (env : RenderEnv)
    (hdoc : st.pdfDocLoaded = true) (hsnap : st.pdfSnapshot = true)
    (hcont : env.containerPresent = true)
    (hfree : pageBusy st pageNum = false)
    (herr : env.analyzeOk = false ∨
      (env.canvasPresent = true ∧ env.primaryOk = false ∧
        (env.isHeavy = true → env.pdfiumOk = false))) :
    mapGet (renderSinglePage st pageNum env).1.pageRenderStates pageNum =
      some ⟨false, false, false⟩ ∧
    pageBusy (renderSinglePage st pageNum env).1 pageNum = false := by
  have key : mapGet (renderSinglePage st pageNum env).1.pageRenderStates pageNum =
      some ⟨false, false, false⟩ := by
    rcases herr with h | ⟨hcv, hpr, hhv⟩
    · simp [renderSinglePage, hdoc, hsnap, hcont, hfree, h, setPageState,
        mapGet_mapSet]
    · by_cases ha : env.analyzeOk = true
      · by_cases hh : env.isHeavy = true
        · simp [renderSinglePage, hdoc, hsnap, hcont, hfree, ha, hcv, hh,
            hhv hh, hpr, setPageState, mapGet_mapSet]
        · simp [renderSinglePage, hdoc, hsnap, hcont, hfree, ha, hcv, hh,
            hpr, setPageState, mapGet_mapSet]
      · simp [renderSinglePage, hdoc, hsnap, hcont, hfree, ha, setPageState,
          mapGet_mapSet]
  refine ⟨key, ?_⟩
  simp [pageBusy, key]

/-- Witness for the amended C7 theorem: with a loaded document and a
failing analysis on page 1, the stored record becomes all-false and the
page is not busy afterwards. -/
theorem error_resets_to_idle_record_witness :
    mapGet (renderSinglePage ⟨true, true, 1, 0, [], []⟩ 1
        ⟨true, false, true, true, true, true⟩).1.pageRenderStates 1 =
      some ⟨false, false, false⟩ ∧
    pageBusy (renderSinglePage ⟨true, true, 1, 0, [], []⟩ 1
        ⟨true, false, true, true, true, true⟩).1 1 = false := by
  exact error_resets_to_idle_record ⟨true, true, 1, 0, [], []⟩ 1
    ⟨true, false, true, true, true, true⟩ rfl rfl rfl (by decide) (Or.inl rfl)

/-! ## Scale/rotation reset and query-only refresh (part_004 lines
664-698): the effect keyed on `[pdfDoc, scale, rotation]` clears the
state map; the effect keyed on the query walks the existing map entries
and rebuilds the text layer of every page whose record is `rendered`,
without touching the map. -/

/-- Scale change: React re-runs the reset effect only when the value
actually changed, and the effect replaces the map with `new Map()`. -/
def changeScale (st : ViewerState) (s : ℚ) : ViewerState :=
  if s = st.scale then st
  else { st with scale := s, pageRenderStates := [] }

/-- Rotation change, identical reset behaviour. -/
def changeRotation (st : ViewerState) (r : ℤ) : ViewerState :=
  if r = st.rotation then st
  else { st with rotation := r, pageRenderStates := [] }

/-- `updateTextLayers`: the pages whose text layer is rebuilt — entries
of the state map that are `rendered` and whose container and text-layer
nodes are found. -/
def updateTextLayers (st : ViewerState)
    (containerPresent textLayerPresent : Nat → Bool) : List Nat :=
  (st.pageRenderStates.filter
    (fun kv => kv.2.rendered && containerPresent kv.1 && textLayerPresent kv.1)).map
    (fun kv => kv.1)

/-- Query change: stores the new query and runs `updateTextLayers`;
the render-state map is not modified. -/
def changeQuery (st : ViewerState) (q : List Char)
    (containerPresent textLayerPresent : Nat → Bool) :
    ViewerState × List Nat :=
  let st2 : ViewerState :=
    ⟨st.pdfDocLoaded, st.pdfSnapshot, st.scale, st.rotation, q,
      st.pageRenderStates⟩
  (st2, updateTextLayers st2 containerPresent textLayerPresent)

/-- C5: a change of the global scale or rotation clears the whole render
state map, so every page reads back as idle (`none`), while a query-only
change leaves the map — hence every `Rendered` page — untouched and
rebuilds text layers exactly for the already-rendered pages (among those
whose DOM nodes are present). -/
theorem scale_rotation_reset_query_preserves (st : ViewerState) (s : ℚ)
    (r : ℤ) (q : List Char) (containerPresent textLayerPresent : Nat → Bool)
    (hs : s ≠ st.scale) (hr : r ≠ st.rotation) :
    (changeScale st s).pageRenderStates = [] ∧
    (∀ p, mapGet (changeScale st s).pageRenderStates p = none) ∧
    (changeRotation st r).pageRenderStates = [] ∧
    (∀ p, mapGet (changeRotation st r).pageRenderStates p = none) ∧
    (changeQuery st q containerPresent textLayerPresent).1.pageRenderStates =
      st.pageRenderStates ∧
    (changeQuery st q containerPresent textLayerPresent).1.searchQuery = q ∧
    (∀ p ∈ (changeQuery st q containerPresent textLayerPresent).2,
      ∃ kv ∈ st.pageRenderStates, kv.1 = p ∧ kv.2.rendered = true) ∧
    (∀ kv ∈ st.pageRenderStates, kv.2.rendered = true →
      containerPresent kv.1 = true → textLayerPresent kv.1 = true →
      kv.1 ∈ (changeQuery st q containerPresent textLayerPresent).2) := by
  refine ⟨?_, ?_, ?_, ?_, rfl, rfl, ?_, ?_⟩
  · simp [changeScale, hs]
  · intro p; simp [changeScale, hs, mapGet]
  · simp [changeRotation, hr]
  · intro p; simp [changeRotation, hr, mapGet]
  · intro p hp
    simp only [changeQuery, updateTextLayers, List.mem_map, List.mem_filter,
      Bool.and_eq_true] at hp
    obtain ⟨kv, ⟨hmem, ⟨hrend, _⟩, _⟩, hp⟩ := hp
    exact ⟨kv, hmem, hp, hrend⟩
  · intro kv hmem hrend hcont htl
    simp only [changeQuery, updateTextLayers, List.mem_map, List.mem_filter,
      Bool.and_eq_true]
    exact ⟨kv, ⟨hmem, ⟨hrend, hcont⟩, htl⟩, rfl⟩

/-- Witness for C5: scaling from 1 to 2 clears a one-entry map; a query
change on the same state keeps the entry and rebuilds page 1's layer. -/
theorem scale_rotation_reset_query_preserves_witness :
    (changeScale ⟨true, true, 1, 0, [], [(1, ⟨true, false, false⟩)]⟩ 2).pageRenderStates = [] ∧
    (changeQuery ⟨true, true, 1, 0, [], [(1, ⟨true, false, false⟩)]⟩
        [Char.ofNat 97] (fun _ => true) (fun _ => true)).1.pageRenderStates =
      [(1, ⟨true, false, false⟩)] ∧
    1 ∈ (changeQuery ⟨true, true, 1, 0, [], [(1, ⟨true, false, false⟩)]⟩
        [Char.ofNat 97] (fun _ => true) (fun _ => true)).2 := by
  obtain ⟨h1, _, _, _, h5, _, _, h8⟩ :=
    scale_rotation_reset_query_preserves
      ⟨true, true, 1, 0, [], [(1, ⟨true, false, false⟩)]⟩ 2 90 [Char.ofNat 97]
      (fun _ => true) (fun _ => true) (by norm_num) (by norm_num)
  exact ⟨h1, h5, h8 (1, ⟨true, false, false⟩) (by simp) rfl rfl rfl⟩

/-! ## Single-page viewer `executeRender` (src/unnamed/part_005 lines
536-686).  `renderWithPdfiumInternal` catches its own errors and returns
a boolean, so a PDFium failure reaches `executeRender` as `false` and the
code falls through to the pdf.js path; `RenderingCancelledException` is
swallowed; any other thrown error sets the user-visible error message. -/

inductive RendererKind where
  | primary
  | fallbackKind
deriving DecidableEq

/-- Environment for one `executeRender` call. -/
structure ExecEnv where
  canvasPresent : Bool
  getPageOk : Bool
  isHeavy : Bool
  pdfiumOk : Bool
  primaryOk : Bool
  primaryCancelled : Bool
  textLayerOk : Bool
deriving DecidableEq

/-- Observable outcome of `executeRender`. -/
structure ExecResult where
  pdfiumInvoked : Bool
  primaryInvoked : Bool
  usedRenderer : Option RendererKind
  errorShown : Bool
deriving DecidableEq

/-- The pdf.js lower half of `executeRender`: cancellation returns
silently, a thrown render or text-layer error sets the error message,
success completes with the Primary renderer. -/
def executeRenderPrimary (pdfiumInvoked : Bool) (env : ExecEnv) : ExecResult :=
  if env.primaryCancelled then ⟨pdfiumInvoked, true, none, false⟩
  else if ¬ env.primaryOk then ⟨pdfiumInvoked, true, none, true⟩
  else if ¬ env.textLayerOk then ⟨pdfiumInvoked, true, none, true⟩
  else ⟨pdfiumInvoked, true, some RendererKind.primary, false⟩

/-- `executeRender`: PDFium is tried only when the analyzer flags the
page heavy and the byte snapshot is held; a PDFium failure falls through
to pdf.js. -/
def executeRender (snapshotAvailable : Bool) (env : ExecEnv) : ExecResult :=
  if ¬ env.canvasPresent then ⟨false, false, none, false⟩
  else if ¬ env.getPageOk then ⟨false, false, none, true⟩
  else if env.isHeavy && snapshotAvailable then
    if env.pdfiumOk then ⟨true, false, some RendererKind.fallbackKind, false⟩
    else executeRenderPrimary true env
  else executeRenderPrimary false env

/-- C2: in both render routines, the Fallback (PDFium) renderer is
invoked only when the page was flagged heavy and the byte snapshot is
available; whenever the Fallback invocation fails, the routine retries
with the Primary renderer, and if Primary then succeeds the render
completes normally — via Primary, with no user-visible error and, in the
multi-page viewer, with the page marked rendered by Primary. -/
theorem fallback_policy_and_degradation :
    (∀ (snap : Bool) (env : ExecEnv),
      ((executeRender snap env).pdfiumInvoked = true →
        env.isHeavy = true ∧ snap = true) ∧
      ((executeRender snap env).pdfiumInvoked = true → env.pdfiumOk = false →
        (executeRender snap env).primaryInvoked = true) ∧
      ((executeRender snap env).pdfiumInvoked = true → env.pdfiumOk = false →
        env.primaryCancelled = false → env.primaryOk = true →
        env.textLayerOk = true →
        (executeRender snap env).usedRenderer = some RendererKind.primary ∧
        (executeRender snap env).errorShown = false)) ∧
    (∀ (st : ViewerState) (pageNum : Nat) (env : RenderEnv),
      ((renderSinglePage st pageNum env).2.pdfiumInvoked = true →
        env.isHeavy = true ∧ st.pdfSnapshot = true) ∧
      ((renderSinglePage st pageNum env).2.pdfiumInvoked = true →
        env.pdfiumOk = false →
        (renderSinglePage st pageNum env).2.primaryInvoked = true) ∧
      ((renderSinglePage st pageNum env).2.pdfiumInvoked = true →
        env.pdfiumOk = false → env.primaryOk = true →
        mapGet (renderSinglePage st pageNum env).1.pageRenderStates pageNum =
          some ⟨true, false, false⟩)) := by
  constructor
  · intro snap env
    obtain ⟨a, b, c, d, e, f, g⟩ := env
    cases snap <;> cases a <;> cases b <;> cases c <;> cases d <;> cases e <;>
      cases f <;> cases g <;> decide
  · intro st pageNum env
    by_cases hdoc : st.pdfDocLoaded = true
    case neg =>
      simp [renderSinglePage, hdoc]
    by_cases hsnap : st.pdfSnapshot = true
    case neg =>
      simp [renderSinglePage, hdoc, hsnap]
    by_cases hcont : env.containerPresent = true
    case neg =>
      simp [renderSinglePage, hdoc, hsnap, hcont]
    by_cases hbusy : pageBusy st pageNum = true
    case pos =>
      simp [renderSinglePage, hdoc, hsnap, hcont, hbusy]
    by_cases ha : env.analyzeOk = true
    case neg =>
      simp [renderSinglePage, hdoc, hsnap, hcont, hbusy, ha]
    by_cases hcv : env.canvasPresent = true
    case neg =>
      simp [renderSinglePage, hdoc, hsnap, hcont, hbusy, ha, hcv]
    by_cases hh : env.isHeavy = true
    case neg =>
      by_cases hp : env.primaryOk = true <;>
        simp [renderSinglePage, hdoc, hsnap, hcont, hbusy, ha, hcv, hh, hp]
    by_cases hpf : env.pdfiumOk = true
    case pos =>
      simp [renderSinglePage, hdoc, hsnap, hcont, hbusy, ha, hcv, hh, hpf,
        hsnap]
    by_cases hp : env.primaryOk = true <;>
      simp [renderSinglePage, hdoc, hsnap, hcont, hbusy, ha, hcv, hh, hpf,
        hp, setPageState, mapGet_mapSet]

/-- Witness for C2: a heavy page with the snapshot held, a failing PDFium
call and a succeeding pdf.js path completes via Primary with no error in
the single-page viewer, and is marked rendered-by-Primary in the
multi-page viewer. -/
theorem fallback_policy_and_degradation_witness :
    (executeRender true ⟨true, true, true, false, true, false, true⟩).usedRenderer =
      some RendererKind.primary ∧
    (executeRender true ⟨true, true, true, false, true, false, true⟩).errorShown =
      false ∧
    mapGet (renderSinglePage ⟨true, true, 1, 0, [], []⟩ 1
        ⟨true, true, true, true, false, true⟩).1.pageRenderStates 1 =
      some ⟨true, false, false⟩ := by
  obtain ⟨h1, h2⟩ := fallback_policy_and_degradation
  obtain ⟨_, _, hc⟩ := h1 true ⟨true, true, true, false, true, false, true⟩
  obtain ⟨hu, he⟩ := hc (by decide) rfl rfl rfl rfl
  obtain ⟨_, _, hm⟩ := h2 ⟨true, true, 1, 0, [], []⟩ 1
    ⟨true, true, true, true, false, true⟩
  exact ⟨hu, he, hm (by decide) rfl rfl⟩

/-! ## Text Layer Synthesizer
Embeds the search-highlight splitting loop of `renderTextLayer`
(src/unnamed/part_005 lines 405-534) and `renderTextLayerToElement`
(src/unnamed/part_004 lines 382-490).  JS strings are lists of
characters; `toLowerCase` is the per-character lowercase map;
`indexOf(needle, from)` becomes leftmost-match search on the remaining
suffix.  The emitted spans become `TextRun`s recording content, the
cumulative character `offset`, and the highlight flag; the numeric span
anchor is reconstructed by `runToSpan` from the `offset` exactly as
`createSpan(content, baseLeft + offsetX, baseTop + offsetY, highlight)`
does, with the cosine/sine of the rotation angle as rational inputs. -/

def lowerStr (s : List Char) : List Char := s.map Char.toLower

/-- Does `q` match at the front of `s`? -/
def headMatches : List Char → List Char → Bool
  | [], _ => true
  | _ :: _, [] => false
  | a :: as, b :: bs => a == b && headMatches as bs

/-- `indexOf`: index of the leftmost occurrence of `q` in `s`. -/
def findIdx (q : List Char) : List Char → Option Nat
  | [] => if q.isEmpty then some 0 else none
  | c :: rest =>
    if headMatches q (c :: rest) then some 0
    else (findIdx q rest).map (fun n => n + 1)

/-- `includes`. -/
def containsSub (s q : List Char) : Bool := (findIdx q s).isSome

/-- One span emitted by the splitting loop: its text, the value of the
`offset` counter when it was emitted, and whether it is a highlighted
match run. -/
structure TextRun where
  content : List Char
  offset : Nat
  highlighted : Bool
deriving DecidableEq

/-- The `while ((matchIndex = lowerText.indexOf(lowerQuery, lastIndex)) !== -1)`
loop, recursing on the suffix after each match; `fuel` bounds the
iteration count (the caller supplies `text.length`, which always
suffices for a non-empty query). -/
def splitRunsF : Nat → List Char → List Char → Nat → List TextRun
  | 0, _, text, off =>
    if text.isEmpty then [] else [⟨text, off, false⟩]
  | fuel + 1, q, text, off =>
    match findIdx (lowerStr q) (lowerStr text) with
    | none => if text.isEmpty then [] else [⟨text, off, false⟩]
    | some i =>
      (if 0 < i then [⟨text.take i, off, false⟩] else []) ++
      ⟨(text.drop i).take q.length, off + i, true⟩ ::
      splitRunsF fuel q (text.drop (i + q.length)) (off + i + q.length)

/-- One text item's spans: when the lowercased query is non-empty and
contained in the lowercased item text, the splitting loop runs;
otherwise the item renders as one unsplit, unhighlighted span at the
base anchor. -/
def renderTextItem (q text : List Char) : List TextRun :=
  if q.isEmpty || !(containsSub (lowerStr text) (lowerStr q)) then
    [⟨text, 0, false⟩]
  else
    splitRunsF text.length q text 0

/-- Offsets are contiguous from `k`: each run starts where the previous
one ended. -/
def offsetsFrom : Nat → List TextRun → Bool
  | _, [] => true
  | k, r :: rest => r.offset = k && offsetsFrom (k + r.content.length) rest

/-- `createSpan` anchor arithmetic: the span's position is the base
anchor advanced by `offset × charWidth × (cos θ, sin θ)`. -/
def runToSpan (baseLeft baseTop charWidth cosA sinA : ℚ) (r : TextRun) :
    List Char × ℚ × ℚ × Bool :=
  (r.content, baseLeft + (r.offset : ℚ) * charWidth * cosA,
    baseTop + (r.offset : ℚ) * charWidth * sinA, r.highlighted)

theorem headMatches_take_eq (q : List Char) :
    ∀ s : List Char, headMatches q s = true ↔ s.take q.length = q := by
  induction q with
  | nil => intro s; simp [headMatches]
  | cons a as ih =>
    intro s
    cases s with
    | nil => simp [headMatches]
    | cons c rest =>
      simp only [headMatches, Bool.and_eq_true, beq_iff_eq, List.length_cons,
        List.take_succ_cons, List.cons.injEq, ih rest]
      constructor
      · rintro ⟨h1, h2⟩; exact ⟨h1.symm, h2⟩
      · rintro ⟨h1, h2⟩; exact ⟨h1.symm, h2⟩

theorem headMatches_of_take (q : List Char) :
    ∀ (s : List Char) (k : Nat),
      headMatches q (s.take k) = true → headMatches q s = true := by
  induction q with
  | nil => intro s k _; rfl
  | cons a as ih =>
    intro s k h
    cases s with
    | nil => simpa using h
    | cons c rest =>
      cases k with
      | zero => simp [headMatches] at h
      | succ k =>
        simp only [List.take_succ_cons, headMatches, Bool.and_eq_true] at h ⊢
        exact ⟨h.1, ih rest k h.2⟩

theorem headMatches_nil_false (q : List Char) (hq : q ≠ []) :
    headMatches q [] = false := by
  cases q with
  | nil => exact absurd rfl hq
  | cons a as => rfl

theorem findIdx_le_len (q : List Char) :
    ∀ (s : List Char) (i : Nat), findIdx q s = some i → i ≤ s.length := by
  intro s
  induction s with
  | nil =>
    intro i h
    simp only [findIdx] at h
    split at h
    · simp at h; omega
    · simp at h
  | cons c rest ih =>
    intro i h
    simp only [findIdx] at h
    split at h
    · simp at h; omega
    · cases hfr : findIdx q rest with
      | none => rw [hfr] at h; simp at h
      | some j =>
        rw [hfr] at h
        simp only [Option.map_some'] at h
        have := ih j hfr
        simp only [Option.some.injEq] at h
        simp [← h, List.length_cons]
        omega

theorem findIdx_matches (q : List Char) :
    ∀ (s : List Char) (i : Nat), findIdx q s = some i →
      headMatches q (s.drop i) = true := by
  intro s
  induction s with
  | nil =>
    intro i h
    simp only [findIdx] at h
    split at h
    case isTrue hq =>
      simp only [Option.some.injEq] at h
      subst h
      cases q with
      | nil => rfl
      | cons a as => simp at hq
    case isFalse => simp at h
  | cons c rest ih =>
    intro i h
    simp only [findIdx] at h
    split at h
    case isTrue hm =>
      simp only [Option.some.injEq] at h
      subst h
      simpa using hm
    case isFalse hm =>
      cases hfr : findIdx q rest with
      | none => rw [hfr] at h; simp at h
      | some j =>
        rw [hfr] at h
        simp only [Option.map_some', Option.some.injEq] at h
        subst h
        simpa using ih j hfr

theorem findIdx_minimal (q : List Char) :
    ∀ (s : List Char) (i : Nat), findIdx q s = some i →
      ∀ j, j < i → headMatches q (s.drop j) = false := by
  intro s
  induction s with
  | nil =>
    intro i h j hj
    simp only [findIdx] at h
    split at h
    · simp at h; omega
    · simp at h
  | cons c rest ih =>
    intro i h j hj
    simp only [findIdx] at h
    split at h
    case isTrue => simp at h; omega
    case isFalse hm =>
      cases hfr : findIdx q rest with
      | none => rw [hfr] at h; simp at h
      | some k =>
        rw [hfr] at h
        simp only [Option.map_some', Option.some.injEq] at h
        subst h
        cases j with
        | zero => simpa using Bool.not_eq_true _ ▸ (Bool.eq_false_iff.mpr hm)
        | succ j => simpa using ih k hfr j (by omega)

theorem findIdx_none_all (q : List Char) (hq : q ≠ []) :
    ∀ (s : List Char), findIdx q s = none →
      ∀ j, headMatches q (s.drop j) = false := by
  intro s
  induction s with
  | nil =>
    intro _ j
    simp only [List.drop_nil]
    exact headMatches_nil_false q hq
  | cons c rest ih =>
    intro h j
    simp only [findIdx] at h
    split at h
    case isTrue => simp at h
    case isFalse hm =>
      cases hfr : findIdx q rest with
      | none =>
        cases j with
        | zero => simpa using Bool.eq_false_iff.mpr hm
        | succ j => simpa using ih hfr j
      | some k => rw [hfr] at h; simp at h

theorem findIdx_bound (q : List Char) (hq : q ≠ []) (s : List Char) (i : Nat)
    (h : findIdx q s = some i) : i + q.length ≤ s.length := by
  have hm := findIdx_matches q s i h
  have hle := findIdx_le_len q s i h
  rw [headMatches_take_eq] at hm
  have hlen := congrArg List.length hm
  simp only [List.length_take, List.length_drop] at hlen
  omega

theorem containsSub_take_false (lq lt : List Char) (i : Nat) (hq : lq ≠ [])
    (hfind : findIdx lq lt = some i) : containsSub (lt.take i) lq = false := by
  unfold containsSub
  cases hj : findIdx lq (lt.take i) with
  | none => rfl
  | some j =>
    exfalso
    have hm := findIdx_matches lq (lt.take i) j hj
    have hji : j < i := by
      by_contra hge
      rw [List.drop_eq_nil_of_le (by simp; omega)] at hm
      rw [headMatches_nil_false lq hq] at hm
      exact Bool.false_ne_true hm
    rw [List.drop_take] at hm
    have := headMatches_of_take lq (lt.drop j) (i - j) hm
    rw [findIdx_minimal lq lt i hfind j hji] at this
    exact Bool.false_ne_true this

theorem offsetsFrom_get :
    ∀ (l : List TextRun) (k : Nat), offsetsFrom k l = true →
      ∀ i : Fin l.length,
        (l.get i).offset = k + ((l.take i.1).map (fun r => r.content.length)).sum := by
  intro l
  induction l with
  | nil => intro k _ i; exact absurd i.2 (by simp)
  | cons r rest ih =>
    intro k hk i
    simp only [offsetsFrom, Bool.and_eq_true, decide_eq_true_eq] at hk
    match i with
    | ⟨0, _⟩ => simpa using hk.1
    | ⟨j + 1, hj⟩ =>
      have := ih (k + r.content.length) hk.2 ⟨j, by simpa using hj⟩
      simp only [List.get_cons_succ] at this ⊢
      simp only [List.take_succ_cons, List.map_cons, List.sum_cons]
      omega

theorem splitRunsF_props (q : List Char) (hq : q ≠ []) :
    ∀ (fuel : Nat) (text : List Char) (off : Nat), text.length ≤ fuel →
      (((splitRunsF fuel q text off).map TextRun.content).flatten = text) ∧
      offsetsFrom off (splitRunsF fuel q text off) = true ∧
      (∀ r ∈ splitRunsF fuel q text off,
        (r.highlighted = true → lowerStr r.content = lowerStr q) ∧
        (r.highlighted = false →
          containsSub (lowerStr r.content) (lowerStr q) = false)) := by
  have hlq : lowerStr q ≠ [] := by
    cases q with
    | nil => exact absurd rfl hq
    | cons a as => simp [lowerStr]
  intro fuel
  induction fuel with
  | zero =>
    intro text off hf
    have : text = [] := List.eq_nil_of_length_eq_zero (by omega)
    subst this
    simp [splitRunsF, offsetsFrom]
  | succ fuel ih =>
    intro text off hf
    cases hfind : findIdx (lowerStr q) (lowerStr text) with
    | none =>
      cases text with
      | nil => simp [splitRunsF, hfind, offsetsFrom]
      | cons c cs =>
        refine ⟨?_, ?_, ?_⟩
        · simp [splitRunsF, hfind]
        · simp [splitRunsF, hfind, offsetsFrom]
        · intro r hr
          simp only [splitRunsF, hfind, List.isEmpty_cons, ite_false,
            Bool.false_eq_true, List.mem_singleton] at hr
          subst hr
          refine ⟨fun h => by simp at h, fun _ => ?_⟩
          simp [containsSub, hfind]
    | some i =>
      have hqlen : 0 < q.length := List.length_pos.mpr hq
      have hbound : i + q.length ≤ text.length := by
        have := findIdx_bound (lowerStr q) hlq (lowerStr text) i hfind
        simpa [lowerStr] using this
      have hrest : (text.drop (i + q.length)).length ≤ fuel := by
        simp only [List.length_drop]; omega
      obtain ⟨ihA, ihB, ihC⟩ := ih (text.drop (i + q.length)) (off + i + q.length) hrest
      have hmatchlen : ((text.drop i).take q.length).length = q.length := by
        simp only [List.length_take, List.length_drop]; omega
      have hdd : text.drop (i + q.length) = (text.drop i).drop q.length := by
        rw [List.drop_drop]
      refine ⟨?_, ?_, ?_⟩
      · -- the run contents concatenate back to the item text
        have hifflat :
            ((if 0 < i then [(⟨text.take i, off, false⟩ : TextRun)] else []).map
              TextRun.content).flatten = text.take i := by
          by_cases hi : 0 < i
          · simp [hi]
          · have hi0 : i = 0 := by omega
            subst hi0
            simp
        simp only [splitRunsF, hfind, List.map_append, List.flatten_append,
          List.map_cons, List.flatten_cons]
        rw [hifflat, ihA, hdd, List.take_append_drop, List.take_append_drop]
      · -- offsets are contiguous
        by_cases hi : 0 < i
        · have hblen : (text.take i).length = i := by
            simp only [List.length_take]; omega
          simp only [splitRunsF, hfind, if_pos hi, List.singleton_append,
            offsetsFrom, hblen, hmatchlen]
          simp [ihB]
        · have hi0 : i = 0 := by omega
          subst hi0
          simp only [Nat.zero_add, Nat.add_zero] at ihB
          simp only [splitRunsF, hfind]
          rw [if_neg hi]
          simp only [List.nil_append, offsetsFrom, hmatchlen, Nat.zero_add,
            Nat.add_zero]
          simp [ihB]
      · -- highlight characterisation
        intro r hr
        simp only [splitRunsF, hfind, List.mem_append, List.mem_cons] at hr
        rcases hr with hmem | hmem | hmem
        · -- the before-match run
          have hi : 0 < i := by
            by_contra hi0
            simp [if_neg hi0] at hmem
          rw [if_pos hi] at hmem
          simp only [List.mem_singleton] at hmem
          subst hmem
          refine ⟨fun h => by simp at h, fun _ => ?_⟩
          show containsSub (lowerStr (text.take i)) (lowerStr q) = false
          have hmt : lowerStr (text.take i) = (lowerStr text).take i := by
            simp [lowerStr]
          rw [hmt]
          exact containsSub_take_false (lowerStr q) (lowerStr text) i hlq hfind
        · -- the match run
          subst hmem
          refine ⟨fun _ => ?_, fun h => by simp at h⟩
          show lowerStr ((text.drop i).take q.length) = lowerStr q
          have hm := findIdx_matches (lowerStr q) (lowerStr text) i hfind
          rw [headMatches_take_eq] at hm
          calc lowerStr ((text.drop i).take q.length)
              = ((lowerStr text).drop i).take q.length := by simp [lowerStr]
            _ = ((lowerStr text).drop i).take (lowerStr q).length := by
                simp [lowerStr]
            _ = lowerStr q := hm
        · exact ihC r hmem

/-- C8: for a non-empty query contained (case-insensitively) in the item
text, the splitting loop produces runs that concatenate exactly back to
the original text with no gap or overlap, whose offsets are contiguous
(each run's offset is the cumulative character count of the runs before
it), where a highlighted run's lowercased content is exactly the
lowercased query and an unhighlighted run contains no occurrence of it,
where at least one highlighted match run exists, where every span's
anchor is the base anchor advanced by
cumulative-count × per-char-width × (cos θ, sin θ), and where query
"cat" against "concatenate" yields runs "con", "cat" (highlighted),
"enate" at offsets 0, 3, 6. -/
theorem text_highlight_splitting (q text : List Char) (hq : q ≠ [])
    (hc : containsSub (lowerStr text) (lowerStr q) = true) :
    (((renderTextItem q text).map TextRun.content).flatten = text) ∧
    offsetsFrom 0 (renderTextItem q text) = true ∧
    (∀ r ∈ renderTextItem q text,
      (r.highlighted = true → lowerStr r.content = lowerStr q) ∧
      (r.highlighted = false →
        containsSub (lowerStr r.content) (lowerStr q) = false)) ∧
    (∃ r ∈ renderTextItem q text, r.highlighted = true) ∧
    (∀ i : Fin (renderTextItem q text).length,
      ((renderTextItem q text).get i).offset =
        (((renderTextItem q text).take i.1).map (fun r => r.content.length)).sum) ∧
    (∀ (bl bt w cA sA : ℚ) (i : Fin (renderTextItem q text).length),
      runToSpan bl bt w cA sA ((renderTextItem q text).get i) =
        (((renderTextItem q text).get i).content,
          bl + (Nat.cast ((((renderTextItem q text).take i.1).map
            (fun r => r.content.length)).sum) : ℚ) * w * cA,
          bt + (Nat.cast ((((renderTextItem q text).take i.1).map
            (fun r => r.content.length)).sum) : ℚ) * w * sA,
          ((renderTextItem q text).get i).highlighted)) ∧
    renderTextItem "cat".toList "concatenate".toList =
      [⟨"con".toList, 0, false⟩, ⟨"cat".toList, 3, true⟩,
        ⟨"enate".toList, 6, false⟩] := by
  have hqe : q.isEmpty = false := by
    cases q with
    | nil => exact absurd rfl hq
    | cons a as => rfl
  have hrt : renderTextItem q text = splitRunsF text.length q text 0 := by
    simp [renderTextItem, hqe, hc]
  obtain ⟨hA, hB, hC⟩ :=
    splitRunsF_props q hq text.length text 0 (Nat.le_refl _)
  have hget : ∀ i : Fin (renderTextItem q text).length,
      ((renderTextItem q text).get i).offset =
        (((renderTextItem q text).take i.1).map (fun r => r.content.length)).sum := by
    intro i
    have := offsetsFrom_get (renderTextItem q text) 0 (by rw [hrt]; exact hB) i
    simpa using this
  refine ⟨by rw [hrt]; exact hA, by rw [hrt]; exact hB,
    by rw [hrt]; exact hC, ?_, hget, ?_, by decide⟩
  · -- a highlighted match run exists
    rw [hrt]
    obtain ⟨i, hfind⟩ := Option.isSome_iff_exists.mp hc
    cases text with
    | nil =>
      exfalso
      simp only [containsSub, lowerStr, List.map_nil] at hc
      rw [show findIdx (List.map Char.toLower q) [] = none from by
        simp [findIdx, List.isEmpty_iff, hq]] at hc
      simp at hc
    | cons c cs =>
      refine ⟨⟨(((c :: cs).drop i).take q.length), 0 + i, true⟩, ?_, rfl⟩
      simp only [List.length_cons, splitRunsF, hfind, List.mem_append,
        List.mem_cons]
      simp
  · intro bl bt w cA sA i
    simp only [runToSpan]
    rw [hget i]

/-- Witness for C8 at the spec's own example: query "cat" against item
text "concatenate". -/
theorem text_highlight_splitting_witness :
    ((renderTextItem "cat".toList "concatenate".toList).map
      TextRun.content).flatten = "concatenate".toList ∧
    offsetsFrom 0 (renderTextItem "cat".toList "concatenate".toList) = true := by
  obtain ⟨h1, h2, _⟩ := text_highlight_splitting "cat".toList
    "concatenate".toList (by decide) (by decide)
  exact ⟨h1, h2⟩

/-! ## Search Index
Embeds `performSearch` (src/unnamed/part_005 lines 697-737,
src/unnamed/part_004 lines 739-778).  A document is a list of pages,
each a list of text-content items; an item is `some str` when it has a
`str` field (a `TextItem`) and `none` otherwise.  The blank-query guard
uses `String.prototype.trim`, modelled by `jsTrim` over ECMAScript
whitespace. -/

/-- The ECMAScript WhiteSpace and LineTerminator characters stripped by
`String.prototype.trim`: TAB through CR (U+0009..U+000D), space, NBSP
(U+00A0), Ogham space mark (U+1680), the U+2000..U+200A spaces, LS
(U+2028), PS (U+2029), narrow no-break space (U+202F), medium
mathematical space (U+205F), ideographic space (U+3000) and BOM
(U+FEFF). -/
def isJsWhitespace (c : Char) : Bool :=
  c = ' ' || (9 ≤ c.toNat && c.toNat ≤ 13) ||
  c = Char.ofNat 160 || c = Char.ofNat 5760 ||
  (8192 ≤ c.toNat && c.toNat ≤ 8202) ||
  c = Char.ofNat 8232 || c = Char.ofNat 8233 ||
  c = Char.ofNat 8239 || c = Char.ofNat 8287 ||
  c = Char.ofNat 12288 || c = Char.ofNat 65279

/-- `String.prototype.trim`. -/
def jsTrim (s : List Char) : List Char :=
  ((s.dropWhile isJsWhitespace).reverse.dropWhile isJsWhitespace).reverse

/-- A search result: 1-based page number, index of the item within the
page's text-content item list, and the item's text. -/
structure SearchMatch where
  pageNum : Nat
  itemIndex : Nat
  text : List Char
deriving DecidableEq

/-- The search-bar state the scan replaces wholesale. -/
structure SearchState where
  results : List SearchMatch
  currentMatchIndex : Int
deriving DecidableEq

/-- The `textContent.items.forEach((item, index) => ...)` body: record
every `str`-bearing item whose lowercased text contains the lowercased
query, tagging it with the running item index (which also counts
non-text items). -/
def searchItems (lq : List Char) (pageNum : Nat) :
    Nat → List (Option (List Char)) → List SearchMatch
  | _, [] => []
  | idx, none :: rest => searchItems lq pageNum (idx + 1) rest
  | idx, some s :: rest =>
    (if containsSub (lowerStr s) lq then [⟨pageNum, idx, s⟩] else []) ++
      searchItems lq pageNum (idx + 1) rest

/-- The `for (let pageNum = 1; pageNum <= pdfDoc.numPages; pageNum++)`
loop: returns the accumulated matches and the list of visited pages in
visit order. -/
def scanPages (lq : List Char) :
    Nat → List (List (Option (List Char))) → List SearchMatch × List Nat
  | _, [] => ([], [])
  | pageNum, items :: rest =>
    let tail := scanPages lq (pageNum + 1) rest
    (searchItems lq pageNum 0 items ++ tail.1, pageNum :: tail.2)

/-- `performSearch`: a blank (empty after trim) query or a missing
document clears the results and sets the index to −1 without visiting
any page; otherwise the full scan runs and wholly replaces the old
state, with the index 0 when matches exist and −1 otherwise. -/
def performSearch (doc : Option (List (List (Option (List Char)))))
    (query : List Char) (_old : SearchState) : SearchState × List Nat :=
  match doc with
  | none => (⟨[], -1⟩, [])
  | some pages =>
    if (jsTrim query).isEmpty then (⟨[], -1⟩, [])
    else
      let scanned := scanPages (lowerStr query) 1 pages
      (⟨scanned.1, if scanned.1.isEmpty then -1 else 0⟩, scanned.2)

/-- The `(pageIndex, itemIndex)` lexicographic order on matches. -/
def matchBefore (a b : SearchMatch) : Prop :=
  a.pageNum < b.pageNum ∨ (a.pageNum = b.pageNum ∧ a.itemIndex < b.itemIndex)

theorem scanPages_visited (lq : List Char) :
    ∀ (pages : List (List (Option (List Char)))) (pageNum : Nat),
      (scanPages lq pageNum pages).2 = List.range' pageNum pages.length := by
  intro pages
  induction pages with
  | nil => intro pageNum; rfl
  | cons items rest ih =>
    intro pageNum
    simp only [scanPages, List.length_cons, List.range'_succ]
    rw [ih (pageNum + 1)]

theorem searchItems_mem (lq : List Char) (pageNum : Nat) :
    ∀ (items : List (Option (List Char))) (idx : Nat) (m : SearchMatch),
      m ∈ searchItems lq pageNum idx items ↔
        ∃ j s, items[j]? = some (some s) ∧
          containsSub (lowerStr s) lq = true ∧ m = ⟨pageNum, idx + j, s⟩ := by
  intro items
  induction items with
  | nil => intro idx m; simp [searchItems]
  | cons item rest ih =>
    intro idx m
    cases item with
    | none =>
      rw [searchItems]
      constructor
      · intro hm
        obtain ⟨j, s, hg, hcs, hm'⟩ := (ih (idx + 1) m).mp hm
        refine ⟨j + 1, s, by simpa using hg, hcs, ?_⟩
        rw [hm']
        congr 1
        omega
      · rintro ⟨j, s, hg, hcs, hm'⟩
        cases j with
        | zero => simp at hg
        | succ j =>
          refine (ih (idx + 1) m).mpr ⟨j, s, by simpa using hg, hcs, ?_⟩
          rw [hm']
          congr 1
          omega
    | some s₀ =>
      rw [searchItems]
      constructor
      · intro hm
        rcases List.mem_append.mp hm with h1 | h2
        · by_cases hcs : containsSub (lowerStr s₀) lq = true
          · rw [if_pos hcs] at h1
            simp only [List.mem_singleton] at h1
            exact ⟨0, s₀, by simp, hcs, by simp [h1]⟩
          · rw [if_neg hcs] at h1
            simp at h1
        · obtain ⟨j, s, hg, hcs, hm'⟩ := (ih (idx + 1) m).mp h2
          refine ⟨j + 1, s, by simpa using hg, hcs, ?_⟩
          rw [hm']
          congr 1
          omega
      · rintro ⟨j, s, hg, hcs, hm'⟩
        cases j with
        | zero =>
          simp only [List.getElem?_cons_zero, Option.some.injEq] at hg
          subst hg
          refine List.mem_append.mpr (Or.inl ?_)
          rw [if_pos hcs]
          simp [hm']
        | succ j =>
          refine List.mem_append.mpr (Or.inr ?_)
          refine (ih (idx + 1) m).mpr ⟨j, s, by simpa using hg, hcs, ?_⟩
          rw [hm']
          congr 1
          omega

theorem searchItems_fields (lq : List Char) (pageNum : Nat)
    (items : List (Option (List Char))) (idx : Nat) (m : SearchMatch)
    (hm : m ∈ searchItems lq pageNum idx items) :
    m.pageNum = pageNum ∧ idx ≤ m.itemIndex := by
  obtain ⟨j, s, _, _, hm'⟩ := (searchItems_mem lq pageNum items idx m).mp hm
  subst hm'
  exact ⟨rfl, by simp⟩

theorem searchItems_pairwise (lq : List Char) (pageNum : Nat) :
    ∀ (items : List (Option (List Char))) (idx : Nat),
      (searchItems lq pageNum idx items).Pairwise
        (fun a b => a.itemIndex < b.itemIndex) := by
  intro items
  induction items with
  | nil => intro idx; simp [searchItems]
  | cons item rest ih =>
    intro idx
    cases item with
    | none =>
      rw [searchItems]
      exact ih (idx + 1)
    | some s₀ =>
      rw [searchItems]
      refine List.pairwise_append.mpr ⟨?_, ih (idx + 1), ?_⟩
      · by_cases hcs : containsSub (lowerStr s₀) lq = true
        · rw [if_pos hcs]; simp
        · rw [if_neg hcs]; simp
      · intro a ha b hb
        have hb' := (searchItems_fields lq pageNum rest (idx + 1) b hb).2
        by_cases hcs : containsSub (lowerStr s₀) lq = true
        · rw [if_pos hcs] at ha
          simp only [List.mem_singleton] at ha
          subst ha
          simp only []
          omega
        · rw [if_neg hcs] at ha
          simp at ha

theorem scanPages_fields (lq : List Char) :
    ∀ (pages : List (List (Option (List Char)))) (pageNum : Nat)
      (m : SearchMatch), m ∈ (scanPages lq pageNum pages).1 →
      pageNum ≤ m.pageNum := by
  intro pages
  induction pages with
  | nil => intro pageNum m hm; simp [scanPages] at hm
  | cons items rest ih =>
    intro pageNum m hm
    rcases List.mem_append.mp hm with h1 | h2
    · exact (searchItems_fields lq pageNum items 0 m h1).1 ▸ Nat.le_refl _
    · have := ih (pageNum + 1) m h2
      omega

theorem scanPages_pairwise (lq : List Char) :
    ∀ (pages : List (List (Option (List Char)))) (pageNum : Nat),
      (scanPages lq pageNum pages).1.Pairwise matchBefore := by
  intro pages
  induction pages with
  | nil => intro pageNum; simp [scanPages]
  | cons items rest ih =>
    intro pageNum
    refine List.pairwise_append.mpr ⟨?_, ih (pageNum + 1), ?_⟩
    · refine (searchItems_pairwise lq pageNum items 0).imp_of_mem ?_
      intro a b ha hb hlt
      right
      exact ⟨(searchItems_fields lq pageNum items 0 a ha).1.trans
        (searchItems_fields lq pageNum items 0 b hb).1.symm, hlt⟩
    · intro a ha b hb
      left
      have h1 := (searchItems_fields lq pageNum items 0 a ha).1
      have h2 := scanPages_fields lq rest (pageNum + 1) b hb
      omega

theorem scanPages_mem (lq : List Char) :
    ∀ (pages : List (List (Option (List Char)))) (pageNum : Nat)
      (m : SearchMatch),
      m ∈ (scanPages lq pageNum pages).1 ↔
        ∃ pi items j s, pages[pi]? = some items ∧
          items[j]? = some (some s) ∧ containsSub (lowerStr s) lq = true ∧
          m = ⟨pageNum + pi, j, s⟩ := by
  intro pages
  induction pages with
  | nil => intro pageNum m; simp [scanPages]
  | cons items rest ih =>
    intro pageNum m
    constructor
    · intro hm
      rcases List.mem_append.mp hm with h1 | h2
      · obtain ⟨j, s, hg, hcs, hm'⟩ :=
          (searchItems_mem lq pageNum items 0 m).mp h1
        exact ⟨0, items, j, s, by simp, hg, hcs, by simpa using hm'⟩
      · obtain ⟨pi, its, j, s, hpg, hg, hcs, hm'⟩ :=
          (ih (pageNum + 1) m).mp h2
        refine ⟨pi + 1, its, j, s, by simpa using hpg, hg, hcs, ?_⟩
        rw [hm']
        congr 1
        omega
    · rintro ⟨pi, its, j, s, hpg, hg, hcs, hm'⟩
      cases pi with
      | zero =>
        simp only [List.getElem?_cons_zero, Option.some.injEq] at hpg
        refine List.mem_append.mpr (Or.inl ?_)
        refine (searchItems_mem lq pageNum items 0 m).mpr ⟨j, s, ?_, hcs, ?_⟩
        · rw [hpg]; exact hg
        · simpa using hm'
      | succ pi =>
        refine List.mem_append.mpr (Or.inr ?_)
        refine (ih (pageNum + 1) m).mpr ⟨pi, its, j, s, by simpa using hpg, hg,
          hcs, ?_⟩
        rw [hm']
        congr 1
        omega

/-- C9: for a loaded document and a non-blank query, the scan visits
pages 1..N in ascending order, the result list consists of exactly the
`str`-bearing items whose lowercased text contains the lowercased query
(tagged with 1-based page number and item index), the list is ordered by
`(pageNum, itemIndex)` ascending, the new state is independent of the
previous one (wholesale replacement), and `currentMatchIndex` is 0 when
results exist and −1 otherwise. -/
theorem search_scan_results (pages : List (List (Option (List Char))))
    (query : List Char) (old : SearchState)
    (hq : (jsTrim query).isEmpty = false) :
    (performSearch (some pages) query old).2 = List.range' 1 pages.length ∧
    (∀ m, m ∈ (performSearch (some pages) query old).1.results ↔
      ∃ pi items j s, pages[pi]? = some items ∧
        items[j]? = some (some s) ∧
        containsSub (lowerStr s) (lowerStr query) = true ∧
        m = ⟨1 + pi, j, s⟩) ∧
    (performSearch (some pages) query old).1.results.Pairwise matchBefore ∧
    ((performSearch (some pages) query old).1.results = [] →
      (performSearch (some pages) query old).1.currentMatchIndex = -1) ∧
    ((performSearch (some pages) query old).1.results ≠ [] →
      (performSearch (some pages) query old).1.currentMatchIndex = 0) ∧
    (∀ old₂, performSearch (some pages) query old =
      performSearch (some pages) query old₂) := by
  have hps : performSearch (some pages) query old =
      (⟨(scanPages (lowerStr query) 1 pages).1,
        if (scanPages (lowerStr query) 1 pages).1.isEmpty then -1 else 0⟩,
        (scanPages (lowerStr query) 1 pages).2) := by
    simp [performSearch, hq]
  refine ⟨?_, ?_, ?_, ?_, ?_, ?_⟩
  · rw [hps]
    exact scanPages_visited (lowerStr query) pages 1
  · intro m
    rw [hps]
    exact scanPages_mem (lowerStr query) pages 1 m
  · rw [hps]
    exact scanPages_pairwise (lowerStr query) pages 1
  · intro h
    rw [hps] at h ⊢
    simp only at h ⊢
    simp [h]
  · intro h
    rw [hps] at h ⊢
    simp only at h ⊢
    simp only [List.isEmpty_iff]
    rw [if_neg h]
  · intro old₂
    rw [hps]
    simp [performSearch, hq]

/-- Witness for C9: a two-page document whose first page holds the single
text item "cat", searched for "cat": both pages are visited in order and
the match index becomes 0. -/
theorem search_scan_results_witness :
    (performSearch (some [[some "cat".toList], []]) "cat".toList
      ⟨[], -1⟩).2 = [1, 2] ∧
    (performSearch (some [[some "cat".toList], []]) "cat".toList
      ⟨[], -1⟩).1.currentMatchIndex = 0 := by
  obtain ⟨ha, _, _, _, he, _⟩ := search_scan_results [[some "cat".toList], []]
    "cat".toList ⟨[], -1⟩ (by decide)
  exact ⟨ha.trans (by decide), he (by decide)⟩

/-- C10: a query that is empty after trimming (blank or whitespace-only)
immediately clears the results and sets `currentMatchIndex` to −1, and
the visited-page list is empty — no page is opened and no text is
extracted. -/
theorem blank_query_clears_search (query : List Char)
    (hq : (jsTrim query).isEmpty = true) :
    ∀ (doc : Option (List (List (Option (List Char))))) (old : SearchState),
      performSearch doc query old = (⟨[], -1⟩, []) := by
  intro doc old
  cases doc with
  | none => rfl
  | some pages => simp [performSearch, hq]

/-- Witness for C10: a query of an ideographic space (U+3000, the
full-width space a Japanese IME produces), an ASCII space and an em
space (U+2003) clears the search for a non-empty document. -/
theorem blank_query_clears_search_witness :
    performSearch (some [[some "cat".toList]])
        [Char.ofNat 12288, ' ', Char.ofNat 8195] ⟨[⟨1, 0, []⟩], 0⟩ =
      (⟨[], -1⟩, []) := by
  exact blank_query_clears_search [Char.ofNat 12288, ' ', Char.ofNat 8195]
    (by decide) (some [[some "cat".toList]]) ⟨[⟨1, 0, []⟩], 0⟩

end PdfjsViewer
